import Mathlib

/-!
Shallow embedding of the portfolio ledger and trade-settlement engine of
src/app.py (a single-file Streamlit stock simulator).

Modelling conventions:
* Monetary quantities are exact rationals; the Python source computes with
  IEEE floats, and the arithmetic here is the ideal arithmetic those
  expressions denote.
* Share counts are integers (the source stores Python ints).
* Each Streamlit session-state dict (watchlist, portfolio, trade_history
  conceptually keyed by position, last_div_credit) becomes an
  insertion-ordered association list with Python dict semantics: lookup
  returns the binding of the key, assignment updates an existing binding in
  place and otherwise appends at the end.
* The wall-clock time string stored on each trade record is omitted (real
  time); calendar dates are opaque strings, as in the source, which compares
  str(date.today()) values for equality.
* The Alpha Vantage quote/overview HTTP calls are an abstract environment:
  a price lookup returning a price or unavailable, and an overview lookup
  returning a company name and dividend yield or unavailable.
-/

universe u

/-- One watchlist record, symbol -> name / price / dividend_yield
(see refresh_symbol in src/app.py).  The price is an Option because the
source checks the stored value against None before trading. -/
structure Entry where
  name : String
  price : Option ℚ
  dividend_yield : ℚ
  deriving DecidableEq

/-- Python dict lookup: the binding of the key, if any (session-state dicts
never hold duplicate keys; lookup returns the first binding). -/
def dictGet {β : Type u} : List (String × β) → String → Option β
  | [], _ => none
  | (k', v) :: m, k => if k' = k then some v else dictGet m k

/-- Python dict.get(k, d): lookup with a default. -/
def dictGetD {β : Type u} (m : List (String × β)) (k : String) (d : β) : β :=
  (dictGet m k).getD d

/-- Python dict assignment d[k] = v: update the existing binding in place,
otherwise append the new binding at the end. -/
def dictSet {β : Type u} : List (String × β) → String → β → List (String × β)
  | [], k, v => [(k, v)]
  | (k', v') :: m, k, v => if k' = k then (k, v) :: m else (k', v') :: dictSet m k v

/-- The action field of a trade record. -/
inductive TradeAction
  | BUY
  | SELL
  deriving DecidableEq

/-- Python round(x, 2) on the ideal rational value.  (CPython rounds exact
half-cent values to even; round here rounds them up.  The engine never
reads the amount field back, so the difference is immaterial to every
property below.) -/
def round2 (q : ℚ) : ℚ := ((round (q * 100) : ℤ) : ℚ) / 100

/-- One trade_history record (log_trade in src/app.py), minus the
wall-clock time string. -/
structure Trade where
  action : TradeAction
  stock : String
  quantity : ℤ
  price : ℚ
  amount : ℚ
  deriving DecidableEq

/-- The session state owned by the ledger (init_state in src/app.py):
cash, the watchlist cache, the portfolio (symbol -> shares), the
append-only trade history, and the per-symbol last dividend-credit date. -/
structure SessionState where
  cash : ℚ
  watchlist : List (String × Entry)
  portfolio : List (String × ℤ)
  trade_history : List Trade
  last_div_credit : List (String × String)
  deriving DecidableEq

/-- Result of av_overview: company name and dividend yield. -/
structure OverviewInfo where
  name : String
  dividend_yield : ℚ

/-- The quote-provider environment: av_quote returns a price or None,
av_overview returns fundamentals or None. -/
structure Env where
  quote : String → Option ℚ
  overview : String → Option OverviewInfo

/-- refresh_symbol in src/app.py: fetch a fresh quote and overview and
merge them into the watchlist record.  Returns none exactly when av_quote
fails (the function then returns False without touching the watchlist);
otherwise the record's price is the fresh quote, and name/dividend_yield
come from the overview when available, else from the old record (defaults:
the symbol itself, and yield 0).  The source's trailing `or 0.0` on the
yield maps 0.0 to 0.0 and is the identity here. -/
def refresh_symbol (env : Env) (wl : List (String × Entry)) (symbol : String) :
    Option (List (String × Entry)) :=
  match env.quote symbol with
  | none => none
  | some p =>
    let r0 : Entry :=
      (dictGet wl symbol).getD { name := symbol, price := none, dividend_yield := 0 }
    let nm : String :=
      match env.overview symbol with
      | some ov => ov.name
      | none => r0.name
    let dy : ℚ :=
      match env.overview symbol with
      | some ov => ov.dividend_yield
      | none => r0.dividend_yield
    some (dictSet wl symbol { name := nm, price := some p, dividend_yield := dy })

/-- The guard shared by buy_by_cash, sell_all and
credit_dividends_once_per_day: `if symbol not in st.session_state.watchlist:
if not refresh_symbol(symbol): return`.  Returns the watchlist to trade
against, or none when the symbol was absent and the refresh failed. -/
def ensureWatchlisted (env : Env) (wl : List (String × Entry)) (symbol : String) :
    Option (List (String × Entry)) :=
  if (dictGet wl symbol).isNone then refresh_symbol env wl symbol else some wl

/-- The distinct failure exits of buy_by_cash and sell_all (each a warning
or error message plus an early return in the source). -/
inductive TradeErr
  | invalidAmount
  | quoteUnavailable
  | noValidPrice
  | insufficientForOne
  | insufficientCash
  | noShares
  deriving DecidableEq

/-- Outcome reported to the UI: a success banner with shares and price, or
one of the failure messages. -/
inductive TradeOutcome
  | ok (shares : ℤ) (price : ℚ)
  | err (e : TradeErr)
  deriving DecidableEq

/-- log_trade in src/app.py: append one record to trade_history.  The
quantity is already an integer; amount = round(qty*price, 2). -/
def log_trade (st : SessionState) (action : TradeAction) (symbol : String)
    (qty : ℤ) (price : ℚ) : SessionState :=
  { st with
    trade_history := st.trade_history ++
      [{ action := action, stock := symbol, quantity := qty, price := price,
         amount := round2 ((qty : ℚ) * price) }] }

/-- buy_by_cash in src/app.py.  The shares bought are
int(cash_amount // price): Python float floor-division, i.e. the floor of
the exact quotient.  (The source's `if cash_amount is None` arm of that
expression is dead: the earlier `cash_amount <= 0` comparison already
requires a number.)  The state returned on a failure exit is the state at
that point: the early exits before the refresh return the input state, the
later ones return it with only the watchlist possibly refreshed. -/
def buy_by_cash (env : Env) (st : SessionState) (symbol : String)
    (cash_amount : ℚ) : SessionState × TradeOutcome :=
  if cash_amount ≤ 0 then (st, .err .invalidAmount)
  else
    match ensureWatchlisted env st.watchlist symbol with
    | none => (st, .err .quoteUnavailable)
    | some wl =>
      let st1 : SessionState := { st with watchlist := wl }
      match ((dictGet wl symbol).getD
          { name := symbol, price := none, dividend_yield := 0 }).price with
      | none => (st1, .err .noValidPrice)
      | some p =>
        if p ≤ 0 then (st1, .err .noValidPrice)
        else
          let max_shares : ℤ := ⌊cash_amount / p⌋
          if max_shares ≤ 0 then (st1, .err .insufficientForOne)
          else
            let cost : ℚ := (max_shares : ℚ) * p
            if st1.cash < cost then (st1, .err .insufficientCash)
            else
              (log_trade
                { st1 with
                  cash := st1.cash - cost,
                  portfolio := dictSet st1.portfolio symbol
                    (dictGetD st1.portfolio symbol 0 + max_shares) }
                .BUY symbol max_shares p,
               .ok max_shares p)

/-- sell_all in src/app.py.  Note well: the price check on the sell side is
only `price is None`; a cached price of 0 or below passes.  On success the
position is set to 0 (the key is retained in the dict), cash is credited
shares*price, and a SELL record is logged. -/
def sell_all (env : Env) (st : SessionState) (symbol : String) :
    SessionState × TradeOutcome :=
  let shares : ℤ := dictGetD st.portfolio symbol 0
  if shares ≤ 0 then (st, .err .noShares)
  else
    match ensureWatchlisted env st.watchlist symbol with
    | none => (st, .err .quoteUnavailable)
    | some wl =>
      let st1 : SessionState := { st with watchlist := wl }
      match ((dictGet wl symbol).getD
          { name := symbol, price := none, dividend_yield := 0 }).price with
      | none => (st1, .err .noValidPrice)
      | some p =>
        (log_trade
          { st1 with
            cash := st1.cash + (shares : ℚ) * p,
            portfolio := dictSet st1.portfolio symbol 0 }
          .SELL symbol shares p,
         .ok shares p)

/-- The Add Cash button in src/app.py: `if add_amt > 0: cash += add_amt`
(a no-op otherwise). -/
def add_cash (st : SessionState) (amt : ℚ) : SessionState :=
  if 0 < amt then { st with cash := st.cash + amt } else st

/-- One iteration of the loop in credit_dividends_once_per_day, for one
(symbol, shares) item of the portfolio dict.  Skips non-positive holdings
and symbols already credited today; otherwise ensures a watchlist record
(continue if the refresh fails), credits price * yield / 252 * shares when
the record has a truthy price and a yield > 0 (credit 0 otherwise, matching
the source which only adds inside the guard), and unconditionally stamps
the symbol's last credit date with today. -/
def div_step (env : Env) (today : String) (acc : SessionState)
    (e : String × ℤ) : SessionState :=
  if e.2 ≤ 0 then acc
  else if dictGet acc.last_div_credit e.1 = some today then acc
  else
    match ensureWatchlisted env acc.watchlist e.1 with
    | none => acc
    | some wl =>
      let info : Entry :=
        (dictGet wl e.1).getD { name := e.1, price := none, dividend_yield := 0 }
      let credit : ℚ :=
        match info.price with
        | none => 0
        | some p =>
          if p ≠ 0 ∧ 0 < info.dividend_yield then
            p * info.dividend_yield / 252 * (e.2 : ℚ)
          else 0
      { acc with
        watchlist := wl,
        cash := acc.cash + credit,
        last_div_credit := dictSet acc.last_div_credit e.1 today }

/-- credit_dividends_once_per_day in src/app.py: iterate the loop body over
the portfolio items.  The loop never mutates the portfolio, so iterating
over the entry list of the starting state is exactly the source's
iteration over portfolio.items(). -/
def credit_dividends_once_per_day (env : Env) (today : String)
    (st : SessionState) : SessionState :=
  st.portfolio.foldl (div_step env today) st

/-- One user-level ledger operation.  Each operation carries the
quote-provider environment in force when it runs (prices may change
between operations). -/
inductive Op
  | opAddCash (amt : ℚ)
  | opBuy (env : Env) (symbol : String) (amount : ℚ)
  | opSell (env : Env) (symbol : String)
  | opAccrue (env : Env) (today : String)

/-- Apply one operation to the session state (the UI discards the outcome
banner; the state is what persists). -/
def applyOp (st : SessionState) : Op → SessionState
  | .opAddCash a => add_cash st a
  | .opBuy env sym a => (buy_by_cash env st sym a).1
  | .opSell env sym => (sell_all env st sym).1
  | .opAccrue env d => credit_dividends_once_per_day env d st

/-- init_state in src/app.py: cash 10000.0 and every dict empty. -/
def initState : SessionState :=
  { cash := 10000, watchlist := [], portfolio := [], trade_history := [],
    last_div_credit := [] }

/-- Run a sequence of operations from the initial session state. -/
def runOps (ops : List Op) : SessionState := ops.foldl applyOp initState

/-- Replay one trade onto a positions map built from scratch: add the BUY
quantity for the trade's symbol, subtract the SELL quantity, with dict
semantics. -/
def replayStep (m : List (String × ℤ)) (t : Trade) : List (String × ℤ) :=
  match t.action with
  | .BUY => dictSet m t.stock (dictGetD m t.stock 0 + t.quantity)
  | .SELL => dictSet m t.stock (dictGetD m t.stock 0 - t.quantity)

/-- Replay a whole trade log from an empty positions map. -/
def replay (log : List Trade) : List (String × ℤ) :=
  log.foldl replayStep []

/-- The inductive invariant of reachable states: cash is non-negative,
every portfolio binding is non-negative, and every positively held symbol
has a watchlist record with a positive cached price. -/
def GoodState (st : SessionState) : Prop :=
  0 ≤ st.cash ∧
  (∀ x ∈ st.portfolio, (0 : ℤ) ≤ x.2) ∧
  (∀ x ∈ st.portfolio, (0 : ℤ) < x.2 →
    ∃ e, dictGet st.watchlist x.1 = some e ∧ ∃ p, e.price = some p ∧ 0 < p)

/-- After a dividend pass, every symbol is "done" for the day: either its
last credit date reads today, or it has no watchlist record and the quote
provider cannot supply one (so a repeat pass skips it identically). -/
def DivDone (env : Env) (today : String) (st : SessionState) (sym : String) : Prop :=
  dictGet st.last_div_credit sym = some today ∨
  (dictGet st.watchlist sym = none ∧ env.quote sym = none)

/-- An environment in which every lookup fails. -/
def envEmpty : Env := { quote := fun _ => none, overview := fun _ => none }

/-- An environment whose fresh quote for XYZ is 200. -/
def env200 : Env :=
  { quote := fun s => if s = "XYZ" then some 200 else none,
    overview := fun _ => none }

/-- Cash 100 and a cached XYZ price of 100: the state for the SpendCash
counterexample (requested amount larger than cash). -/
def stC1 : SessionState :=
  { cash := 100,
    watchlist := [("XYZ", { name := "XYZ", price := some 100, dividend_yield := 0 })],
    portfolio := [], trade_history := [], last_div_credit := [] }

/-- One held XYZ share with a cached price of 0: the state under which
sell_all logs a zero-price trade. -/
def stC4 : SessionState :=
  { cash := 0,
    watchlist := [("XYZ", { name := "XYZ", price := some 0, dividend_yield := 0 })],
    portfolio := [("XYZ", 1)], trade_history := [], last_div_credit := [] }

/-- Scenario B of the spec: cash 600, two XYZ shares, cached price 250. -/
def stC5 : SessionState :=
  { cash := 600,
    watchlist := [("XYZ", { name := "XYZ", price := some 250, dividend_yield := 0 })],
    portfolio := [("XYZ", 2)], trade_history := [], last_div_credit := [] }

/-- Cash 1000 and a cached XYZ price of 100, while the live quote is 200:
the state for the stale-price counterexample. -/
def stC6 : SessionState :=
  { cash := 1000,
    watchlist := [("XYZ", { name := "XYZ", price := some 100, dividend_yield := 0 })],
    portfolio := [], trade_history := [], last_div_credit := [] }

/-- Ten held XYZ shares whose watchlist record has a price but yield 0: the
state for the dividend date-stamping claim. -/
def stC10 : SessionState :=
  { cash := 500,
    watchlist := [("XYZ", { name := "XYZ", price := some 50, dividend_yield := 0 })],
    portfolio := [("XYZ", 10)], trade_history := [], last_div_credit := [] }

/-- A later watchlist record for XYZ with a valid price and positive yield. -/
def entryC10 : Entry := { name := "XYZ", price := some 50, dividend_yield := 1 / 50 }

/-! ### Association-list (Python dict) lemmas -/

theorem dictGet_dictSet_self {β : Type u} (m : List (String × β)) (k : String) (v : β) :
    dictGet (dictSet m k v) k = some v := by
  induction m with
  | nil => simp [dictGet, dictSet]
  | cons x m ih =>
    obtain ⟨k', v'⟩ := x
    by_cases h : k' = k
    · simp [dictSet, dictGet, h]
    · simp [dictSet, dictGet, h, ih]

theorem dictGet_dictSet_ne {β : Type u} (m : List (String × β)) {k k' : String} (v : β)
    (h : k' ≠ k) : dictGet (dictSet m k v) k' = dictGet m k' := by
  induction m with
  | nil => simp [dictGet, dictSet, Ne.symm h]
  | cons x m ih =>
    obtain ⟨k0, v0⟩ := x
    by_cases h0 : k0 = k
    · subst h0
      simp [dictSet, dictGet, Ne.symm h]
    · simp [dictSet, dictGet, h0, ih]

theorem mem_dictSet {β : Type u} {m : List (String × β)} {k : String} {v : β}
    {x : String × β} (h : x ∈ dictSet m k v) : x = (k, v) ∨ x ∈ m := by
  induction m with
  | nil => simpa [dictSet] using h
  | cons y m ih =>
    obtain ⟨k0, v0⟩ := y
    by_cases h0 : k0 = k
    · rw [dictSet, if_pos h0] at h
      rcases List.mem_cons.mp h with h1 | h1
      · exact Or.inl h1
      · exact Or.inr (List.mem_cons_of_mem _ h1)
    · rw [dictSet, if_neg h0] at h
      rcases List.mem_cons.mp h with h1 | h1
      · exact Or.inr (h1 ▸ List.mem_cons_self _ _)
      · rcases ih h1 with h2 | h2
        · exact Or.inl h2
        · exact Or.inr (List.mem_cons_of_mem _ h2)

theorem dictGet_mem {β : Type u} {m : List (String × β)} {k : String} {v : β}
    (h : dictGet m k = some v) : (k, v) ∈ m := by
  induction m with
  | nil => simp [dictGet] at h
  | cons y m ih =>
    obtain ⟨k0, v0⟩ := y
    by_cases h0 : k0 = k
    · subst h0
      rw [dictGet, if_pos rfl] at h
      exact (Option.some.inj h) ▸ List.mem_cons_self _ _
    · rw [dictGet, if_neg h0] at h
      exact List.mem_cons_of_mem _ (ih h)

/-! ### Specification lemmas for refresh_symbol and its guard -/

theorem refresh_symbol_some {env : Env} {wl wl' : List (String × Entry)} {symbol : String}
    (h : refresh_symbol env wl symbol = some wl') :
    ∃ p e, env.quote symbol = some p ∧ dictGet wl' symbol = some e ∧ e.price = some p ∧
      ∀ k, k ≠ symbol → dictGet wl' k = dictGet wl k := by
  unfold refresh_symbol at h
  cases hq : env.quote symbol with
  | none => rw [hq] at h; exact absurd h (by simp)
  | some p =>
    rw [hq] at h
    simp only [Option.some.injEq] at h
    subst h
    refine ⟨p, _, rfl, dictGet_dictSet_self .., rfl, fun k hk => dictGet_dictSet_ne _ _ hk⟩

theorem refresh_symbol_none {env : Env} {wl : List (String × Entry)} {symbol : String}
    (h : refresh_symbol env wl symbol = none) : env.quote symbol = none := by
  unfold refresh_symbol at h
  cases hq : env.quote symbol with
  | none => rfl
  | some p => rw [hq] at h; exact absurd h (by simp)

theorem ensureWatchlisted_some {env : Env} {wl0 wl : List (String × Entry)} {sym : String}
    (h : ensureWatchlisted env wl0 sym = some wl) :
    (wl = wl0 ∧ (dictGet wl0 sym).isSome = true) ∨
    (dictGet wl0 sym = none ∧
      ∃ p e, env.quote sym = some p ∧ dictGet wl sym = some e ∧ e.price = some p ∧
        ∀ k, k ≠ sym → dictGet wl k = dictGet wl0 k) := by
  unfold ensureWatchlisted at h
  by_cases h0 : (dictGet wl0 sym).isNone
  · rw [if_pos h0] at h
    exact Or.inr ⟨Option.isNone_iff_eq_none.mp h0, refresh_symbol_some h⟩
  · rw [if_neg h0] at h
    exact Or.inl ⟨(Option.some.inj h).symm, by
      cases hg : dictGet wl0 sym with
      | none => exact absurd (by simp [hg]) h0
      | some e => rfl⟩

theorem ensureWatchlisted_none {env : Env} {wl0 : List (String × Entry)} {sym : String}
    (h : ensureWatchlisted env wl0 sym = none) :
    dictGet wl0 sym = none ∧ env.quote sym = none := by
  unfold ensureWatchlisted at h
  by_cases h0 : (dictGet wl0 sym).isNone
  · rw [if_pos h0] at h
    refine ⟨Option.isNone_iff_eq_none.mp h0, refresh_symbol_none h⟩
  · rw [if_neg h0] at h
    exact absurd h (by simp)

theorem ensureWatchlisted_of_lookup (env : Env) {wl0 : List (String × Entry)} {sym : String}
    {e : Entry} (h : dictGet wl0 sym = some e) :
    ensureWatchlisted env wl0 sym = some wl0 := by
  unfold ensureWatchlisted
  rw [h]
  rfl

theorem lookup_price_of_getD {wl : List (String × Entry)} {sym : String} {p : ℚ}
    (h : ((dictGet wl sym).getD
      { name := sym, price := none, dividend_yield := 0 }).price = some p) :
    ∃ e, dictGet wl sym = some e ∧ e.price = some p := by
  cases hg : dictGet wl sym with
  | none => rw [hg] at h; exact absurd h (by simp)
  | some e => rw [hg] at h; exact ⟨e, rfl, h⟩

theorem ensureWatchlisted_eq_none {env : Env} {wl : List (String × Entry)} {sym : String}
    (hw : dictGet wl sym = none) (hq : env.quote sym = none) :
    ensureWatchlisted env wl sym = none := by
  unfold ensureWatchlisted refresh_symbol
  rw [hw, hq]
  rfl

/-! ### Reduction lemmas for the dividend loop body -/

theorem div_step_nonpos (env : Env) (today : String) (acc : SessionState)
    (e : String × ℤ) (h : e.2 ≤ 0) : div_step env today acc e = acc := by
  unfold div_step
  rw [if_pos h]

theorem div_step_today (env : Env) (today : String) (acc : SessionState)
    (e : String × ℤ) (h : dictGet acc.last_div_credit e.1 = some today) :
    div_step env today acc e = acc := by
  unfold div_step
  by_cases h1 : e.2 ≤ 0
  · rw [if_pos h1]
  · rw [if_neg h1, if_pos h]

theorem div_step_unavailable (env : Env) (today : String) (acc : SessionState)
    (e : String × ℤ) (hw : dictGet acc.watchlist e.1 = none)
    (hq : env.quote e.1 = none) : div_step env today acc e = acc := by
  unfold div_step
  by_cases h1 : e.2 ≤ 0
  · rw [if_pos h1]
  by_cases h2 : dictGet acc.last_div_credit e.1 = some today
  · rw [if_neg h1, if_pos h2]
  · rw [if_neg h1, if_neg h2, ensureWatchlisted_eq_none hw hq]

theorem div_step_eq_of_lookup (env : Env) (today : String) (acc : SessionState)
    (e : String × ℤ) (en : Entry) (h1 : ¬ e.2 ≤ 0)
    (h2 : ¬ dictGet acc.last_div_credit e.1 = some today)
    (hw : dictGet acc.watchlist e.1 = some en) :
    div_step env today acc e =
      { acc with
        cash := acc.cash +
          (match en.price with
          | none => 0
          | some p =>
            if p ≠ 0 ∧ 0 < en.dividend_yield then
              p * en.dividend_yield / 252 * (e.2 : ℚ)
            else 0),
        last_div_credit := dictSet acc.last_div_credit e.1 today } := by
  unfold div_step
  rw [if_neg h1, if_neg h2, ensureWatchlisted_of_lookup env hw]
  simp only [hw, Option.getD_some]

theorem div_step_shape (env : Env) (today : String) (acc : SessionState)
    (e : String × ℤ) (h1 : ¬ e.2 ≤ 0)
    (h2 : ¬ dictGet acc.last_div_credit e.1 = some today)
    (h3 : ¬ (dictGet acc.watchlist e.1 = none ∧ env.quote e.1 = none)) :
    ∃ wl c, (∀ k, k ≠ e.1 → dictGet wl k = dictGet acc.watchlist k) ∧
      div_step env today acc e =
        { acc with
          watchlist := wl, cash := c,
          last_div_credit := dictSet acc.last_div_credit e.1 today } := by
  unfold div_step
  rw [if_neg h1, if_neg h2]
  cases hens : ensureWatchlisted env acc.watchlist e.1 with
  | none => exact absurd (ensureWatchlisted_none hens) h3
  | some wl =>
    refine ⟨wl, _, ?_, rfl⟩
    rcases ensureWatchlisted_some hens with ⟨rfl, _⟩ | ⟨_, _, _, _, _, _, hk⟩
    · exact fun k _ => rfl
    · exact hk

/-! ### Structural facts about the dividend loop -/

theorem div_step_portfolio (env : Env) (today : String) (acc : SessionState)
    (e : String × ℤ) : (div_step env today acc e).portfolio = acc.portfolio := by
  unfold div_step
  split
  · rfl
  split
  · rfl
  split
  · rfl
  · rfl

theorem div_step_trade_history (env : Env) (today : String) (acc : SessionState)
    (e : String × ℤ) : (div_step env today acc e).trade_history = acc.trade_history := by
  unfold div_step
  split
  · rfl
  split
  · rfl
  split
  · rfl
  · rfl

theorem foldl_div_portfolio (env : Env) (today : String) :
    ∀ (l : List (String × ℤ)) (acc : SessionState),
      (l.foldl (div_step env today) acc).portfolio = acc.portfolio := by
  intro l
  induction l with
  | nil => intro acc; rfl
  | cons e l ih => intro acc; rw [List.foldl_cons, ih, div_step_portfolio]

theorem foldl_div_trade_history (env : Env) (today : String) :
    ∀ (l : List (String × ℤ)) (acc : SessionState),
      (l.foldl (div_step env today) acc).trade_history = acc.trade_history := by
  intro l
  induction l with
  | nil => intro acc; rfl
  | cons e l ih => intro acc; rw [List.foldl_cons, ih, div_step_trade_history]

/-! ### Same-day idempotence of the dividend accrual -/

theorem div_step_preserves_divdone (env : Env) (today : String) (acc : SessionState)
    (e : String × ℤ) (sym : String) (hd : DivDone env today acc sym) :
    DivDone env today (div_step env today acc e) sym := by
  by_cases h1 : e.2 ≤ 0
  · rw [div_step_nonpos env today acc e h1]; exact hd
  by_cases h2 : dictGet acc.last_div_credit e.1 = some today
  · rw [div_step_today env today acc e h2]; exact hd
  by_cases h3 : dictGet acc.watchlist e.1 = none ∧ env.quote e.1 = none
  · rw [div_step_unavailable env today acc e h3.1 h3.2]; exact hd
  obtain ⟨wl, c, hk, heq⟩ := div_step_shape env today acc e h1 h2 h3
  rw [heq]
  rcases hd with hl | ⟨hwn, hqn⟩
  · left
    by_cases hs : sym = e.1
    · subst hs
      exact dictGet_dictSet_self ..
    · show dictGet (dictSet acc.last_div_credit e.1 today) sym = some today
      rw [dictGet_dictSet_ne _ _ hs]
      exact hl
  · right
    by_cases hs : sym = e.1
    · subst hs
      exact absurd ⟨hwn, hqn⟩ h3
    · exact ⟨(hk sym hs).trans hwn, hqn⟩

theorem div_step_establishes (env : Env) (today : String) (acc : SessionState)
    (e : String × ℤ) (h1 : ¬ e.2 ≤ 0) :
    DivDone env today (div_step env today acc e) e.1 := by
  by_cases h2 : dictGet acc.last_div_credit e.1 = some today
  · rw [div_step_today env today acc e h2]; left; exact h2
  by_cases h3 : dictGet acc.watchlist e.1 = none ∧ env.quote e.1 = none
  · rw [div_step_unavailable env today acc e h3.1 h3.2]; right; exact h3
  obtain ⟨wl, c, hk, heq⟩ := div_step_shape env today acc e h1 h2 h3
  rw [heq]
  left
  exact dictGet_dictSet_self ..

theorem div_step_id_of_divdone (env : Env) (today : String) (acc : SessionState)
    (e : String × ℤ) (hd : 0 < e.2 → DivDone env today acc e.1) :
    div_step env today acc e = acc := by
  by_cases h1 : e.2 ≤ 0
  · exact div_step_nonpos env today acc e h1
  rcases hd (not_le.mp h1) with hl | ⟨hwn, hqn⟩
  · exact div_step_today env today acc e hl
  · exact div_step_unavailable env today acc e hwn hqn

theorem foldl_div_preserves_divdone (env : Env) (today : String) (sym : String) :
    ∀ (l : List (String × ℤ)) (acc : SessionState), DivDone env today acc sym →
      DivDone env today (l.foldl (div_step env today) acc) sym := by
  intro l
  induction l with
  | nil => intro acc hd; exact hd
  | cons e l ih =>
    intro acc hd
    rw [List.foldl_cons]
    exact ih _ (div_step_preserves_divdone env today acc e sym hd)

theorem foldl_div_establishes (env : Env) (today : String) :
    ∀ (l : List (String × ℤ)) (acc : SessionState) (e : String × ℤ),
      e ∈ l → 0 < e.2 → DivDone env today (l.foldl (div_step env today) acc) e.1 := by
  intro l
  induction l with
  | nil => intro acc e he; exact absurd he (List.not_mem_nil e)
  | cons y l ih =>
    intro acc e he hpos
    rw [List.foldl_cons]
    rcases List.mem_cons.mp he with rfl | he'
    · exact foldl_div_preserves_divdone env today e.1 l _
        (div_step_establishes env today acc e (not_le.mpr hpos))
    · exact ih _ e he' hpos

theorem foldl_div_id (env : Env) (today : String) :
    ∀ (l : List (String × ℤ)) (acc : SessionState),
      (∀ e ∈ l, 0 < e.2 → DivDone env today acc e.1) →
      l.foldl (div_step env today) acc = acc := by
  intro l
  induction l with
  | nil => intro acc _; rfl
  | cons e l ih =>
    intro acc hd
    rw [List.foldl_cons, div_step_id_of_divdone env today acc e
        (hd e (List.mem_cons_self e l))]
    exact ih acc fun x hx => hd x (List.mem_cons_of_mem e hx)

theorem credit_dividends_idempotent (env : Env) (today : String) (st : SessionState) :
    credit_dividends_once_per_day env today (credit_dividends_once_per_day env today st) =
      credit_dividends_once_per_day env today st := by
  unfold credit_dividends_once_per_day
  rw [foldl_div_portfolio]
  exact foldl_div_id env today st.portfolio _
    fun e he hpos => foldl_div_establishes env today st.portfolio st e he hpos

/-! ### Reduction lemmas for buy_by_cash -/

theorem buy_err_nonpos {env : Env} {st : SessionState} {sym : String} {a : ℚ}
    (h0 : a ≤ 0) : buy_by_cash env st sym a = (st, .err .invalidAmount) := by
  unfold buy_by_cash
  rw [if_pos h0]

theorem buy_err_quote {env : Env} {st : SessionState} {sym : String} {a : ℚ}
    (h0 : ¬ a ≤ 0) (hens : ensureWatchlisted env st.watchlist sym = none) :
    buy_by_cash env st sym a = (st, .err .quoteUnavailable) := by
  unfold buy_by_cash
  rw [if_neg h0]
  simp only [hens]

theorem buy_err_noprice {env : Env} {st : SessionState} {sym : String} {a : ℚ}
    {wl : List (String × Entry)}
    (h0 : ¬ a ≤ 0) (hens : ensureWatchlisted env st.watchlist sym = some wl)
    (hpe : ((dictGet wl sym).getD
      { name := sym, price := none, dividend_yield := 0 }).price = none) :
    buy_by_cash env st sym a = ({ st with watchlist := wl }, .err .noValidPrice) := by
  unfold buy_by_cash
  rw [if_neg h0]
  simp only [hens, hpe]

theorem buy_err_noprice2 {env : Env} {st : SessionState} {sym : String} {a : ℚ}
    {wl : List (String × Entry)} {p : ℚ}
    (h0 : ¬ a ≤ 0) (hens : ensureWatchlisted env st.watchlist sym = some wl)
    (hpe : ((dictGet wl sym).getD
      { name := sym, price := none, dividend_yield := 0 }).price = some p)
    (hp : p ≤ 0) :
    buy_by_cash env st sym a = ({ st with watchlist := wl }, .err .noValidPrice) := by
  unfold buy_by_cash
  rw [if_neg h0]
  simp only [hens, hpe]
  rw [if_pos hp]

theorem buy_err_zeroshares {env : Env} {st : SessionState} {sym : String} {a : ℚ}
    {wl : List (String × Entry)} {p : ℚ}
    (h0 : ¬ a ≤ 0) (hens : ensureWatchlisted env st.watchlist sym = some wl)
    (hpe : ((dictGet wl sym).getD
      { name := sym, price := none, dividend_yield := 0 }).price = some p)
    (hp : ¬ p ≤ 0) (hm : ⌊a / p⌋ ≤ 0) :
    buy_by_cash env st sym a = ({ st with watchlist := wl }, .err .insufficientForOne) := by
  unfold buy_by_cash
  rw [if_neg h0]
  simp only [hens, hpe]
  rw [if_neg hp, if_pos hm]

theorem buy_err_cash {env : Env} {st : SessionState} {sym : String} {a : ℚ}
    {wl : List (String × Entry)} {p : ℚ}
    (h0 : ¬ a ≤ 0) (hens : ensureWatchlisted env st.watchlist sym = some wl)
    (hpe : ((dictGet wl sym).getD
      { name := sym, price := none, dividend_yield := 0 }).price = some p)
    (hp : ¬ p ≤ 0) (hm : ¬ ⌊a / p⌋ ≤ 0) (hc : st.cash < (⌊a / p⌋ : ℚ) * p) :
    buy_by_cash env st sym a = ({ st with watchlist := wl }, .err .insufficientCash) := by
  unfold buy_by_cash
  rw [if_neg h0]
  simp only [hens, hpe]
  rw [if_neg hp, if_neg hm, if_pos hc]

theorem buy_success_eq {env : Env} {st : SessionState} {sym : String} {a : ℚ}
    {wl : List (String × Entry)} {p : ℚ}
    (h0 : ¬ a ≤ 0) (hens : ensureWatchlisted env st.watchlist sym = some wl)
    (hpe : ((dictGet wl sym).getD
      { name := sym, price := none, dividend_yield := 0 }).price = some p)
    (hp : ¬ p ≤ 0) (hm : ¬ ⌊a / p⌋ ≤ 0) (hc : ¬ st.cash < (⌊a / p⌋ : ℚ) * p) :
    buy_by_cash env st sym a =
      (log_trade
        { st with
          watchlist := wl, cash := st.cash - (⌊a / p⌋ : ℚ) * p,
          portfolio := dictSet st.portfolio sym (dictGetD st.portfolio sym 0 + ⌊a / p⌋) }
        .BUY sym ⌊a / p⌋ p, .ok ⌊a / p⌋ p) := by
  unfold buy_by_cash
  rw [if_neg h0]
  simp only [hens, hpe]
  rw [if_neg hp, if_neg hm, if_neg hc]

/-- Case analysis for a whole buy_by_cash call: either it fails, leaving
cash, portfolio and trade history exactly as before (the watchlist is
either untouched or the refreshed one), or every guard passed and the call
is the explicit success state. -/
theorem buy_by_cash_cases (env : Env) (st : SessionState) (sym : String) (a : ℚ) :
    (∃ e st', buy_by_cash env st sym a = (st', .err e) ∧ st'.cash = st.cash ∧
       st'.portfolio = st.portfolio ∧ st'.trade_history = st.trade_history ∧
       (st'.watchlist = st.watchlist ∨
         ensureWatchlisted env st.watchlist sym = some st'.watchlist)) ∨
    (∃ wl p, ensureWatchlisted env st.watchlist sym = some wl ∧
       (∃ en, dictGet wl sym = some en ∧ en.price = some p) ∧ 0 < p ∧ 0 < a ∧
       1 ≤ ⌊a / p⌋ ∧ (⌊a / p⌋ : ℚ) * p ≤ st.cash ∧
       buy_by_cash env st sym a =
         (log_trade
           { st with
             watchlist := wl, cash := st.cash - (⌊a / p⌋ : ℚ) * p,
             portfolio := dictSet st.portfolio sym (dictGetD st.portfolio sym 0 + ⌊a / p⌋) }
           .BUY sym ⌊a / p⌋ p, .ok ⌊a / p⌋ p)) := by
  by_cases h0 : a ≤ 0
  · exact Or.inl ⟨_, st, buy_err_nonpos h0, rfl, rfl, rfl, Or.inl rfl⟩
  cases hens : ensureWatchlisted env st.watchlist sym with
  | none => exact Or.inl ⟨_, st, buy_err_quote h0 hens, rfl, rfl, rfl, Or.inl rfl⟩
  | some wl =>
    cases hpe : ((dictGet wl sym).getD
        { name := sym, price := none, dividend_yield := 0 }).price with
    | none =>
      exact Or.inl ⟨_, _, buy_err_noprice h0 hens hpe, rfl, rfl, rfl, Or.inr rfl⟩
    | some p =>
      by_cases hp : p ≤ 0
      · exact Or.inl ⟨_, _, buy_err_noprice2 h0 hens hpe hp, rfl, rfl, rfl, Or.inr rfl⟩
      by_cases hm : ⌊a / p⌋ ≤ 0
      · exact Or.inl ⟨_, _, buy_err_zeroshares h0 hens hpe hp hm, rfl, rfl, rfl,
          Or.inr rfl⟩
      by_cases hc : st.cash < (⌊a / p⌋ : ℚ) * p
      · exact Or.inl ⟨_, _, buy_err_cash h0 hens hpe hp hm hc, rfl, rfl, rfl,
          Or.inr rfl⟩
      · exact Or.inr ⟨wl, p, rfl, lookup_price_of_getD hpe, not_le.mp hp,
          not_le.mp h0, by omega, not_lt.mp hc, buy_success_eq h0 hens hpe hp hm hc⟩

/-! ### Reduction lemmas for sell_all -/

theorem sell_err_noshares {env : Env} {st : SessionState} {sym : String}
    (h0 : dictGetD st.portfolio sym 0 ≤ 0) :
    sell_all env st sym = (st, .err .noShares) := by
  unfold sell_all
  rw [if_pos h0]

theorem sell_err_quote {env : Env} {st : SessionState} {sym : String}
    (h0 : ¬ dictGetD st.portfolio sym 0 ≤ 0)
    (hens : ensureWatchlisted env st.watchlist sym = none) :
    sell_all env st sym = (st, .err .quoteUnavailable) := by
  unfold sell_all
  rw [if_neg h0]
  simp only [hens]

theorem sell_err_noprice {env : Env} {st : SessionState} {sym : String}
    {wl : List (String × Entry)}
    (h0 : ¬ dictGetD st.portfolio sym 0 ≤ 0)
    (hens : ensureWatchlisted env st.watchlist sym = some wl)
    (hpe : ((dictGet wl sym).getD
      { name := sym, price := none, dividend_yield := 0 }).price = none) :
    sell_all env st sym = ({ st with watchlist := wl }, .err .noValidPrice) := by
  unfold sell_all
  rw [if_neg h0]
  simp only [hens, hpe]

theorem sell_success_eq {env : Env} {st : SessionState} {sym : String}
    {wl : List (String × Entry)} {p : ℚ}
    (h0 : ¬ dictGetD st.portfolio sym 0 ≤ 0)
    (hens : ensureWatchlisted env st.watchlist sym = some wl)
    (hpe : ((dictGet wl sym).getD
      { name := sym, price := none, dividend_yield := 0 }).price = some p) :
    sell_all env st sym =
      (log_trade
        { st with
          watchlist := wl,
          cash := st.cash + ((dictGetD st.portfolio sym 0 : ℤ) : ℚ) * p,
          portfolio := dictSet st.portfolio sym 0 }
        .SELL sym (dictGetD st.portfolio sym 0) p,
       .ok (dictGetD st.portfolio sym 0) p) := by
  unfold sell_all
  rw [if_neg h0]
  simp only [hens, hpe]

/-- Case analysis for a whole sell_all call, mirroring buy_by_cash_cases. -/
theorem sell_all_cases (env : Env) (st : SessionState) (sym : String) :
    (∃ e st', sell_all env st sym = (st', .err e) ∧ st'.cash = st.cash ∧
       st'.portfolio = st.portfolio ∧ st'.trade_history = st.trade_history ∧
       (st'.watchlist = st.watchlist ∨
         ensureWatchlisted env st.watchlist sym = some st'.watchlist)) ∨
    (∃ wl p, 0 < dictGetD st.portfolio sym 0 ∧
       ensureWatchlisted env st.watchlist sym = some wl ∧
       (∃ en, dictGet wl sym = some en ∧ en.price = some p) ∧
       sell_all env st sym =
         (log_trade
           { st with
             watchlist := wl,
             cash := st.cash + ((dictGetD st.portfolio sym 0 : ℤ) : ℚ) * p,
             portfolio := dictSet st.portfolio sym 0 }
           .SELL sym (dictGetD st.portfolio sym 0) p,
          .ok (dictGetD st.portfolio sym 0) p)) := by
  by_cases h0 : dictGetD st.portfolio sym 0 ≤ 0
  · exact Or.inl ⟨_, st, sell_err_noshares h0, rfl, rfl, rfl, Or.inl rfl⟩
  cases hens : ensureWatchlisted env st.watchlist sym with
  | none => exact Or.inl ⟨_, st, sell_err_quote h0 hens, rfl, rfl, rfl, Or.inl rfl⟩
  | some wl =>
    cases hpe : ((dictGet wl sym).getD
        { name := sym, price := none, dividend_yield := 0 }).price with
    | none =>
      exact Or.inl ⟨_, _, sell_err_noprice h0 hens hpe, rfl, rfl, rfl, Or.inr rfl⟩
    | some p =>
      exact Or.inr ⟨wl, p, not_le.mp h0, rfl, lookup_price_of_getD hpe,
        sell_success_eq h0 hens hpe⟩

/-! ### The cash / position invariant -/

theorem dictGetD_nonneg {m : List (String × ℤ)} (k : String)
    (hnn : ∀ x ∈ m, (0 : ℤ) ≤ x.2) : 0 ≤ dictGetD m k 0 := by
  unfold dictGetD
  cases hg : dictGet m k with
  | none => exact le_refl 0
  | some v => exact hnn (k, v) (dictGet_mem hg)

theorem dictGetD_pos_mem {m : List (String × ℤ)} {k : String}
    (hpos : 0 < dictGetD m k 0) : (k, dictGetD m k 0) ∈ m := by
  unfold dictGetD at hpos ⊢
  cases hg : dictGet m k with
  | none => rw [hg] at hpos; exact absurd hpos (by norm_num)
  | some v => exact dictGet_mem hg

theorem good_aux_transfer {env : Env} {st : SessionState}
    {wl : List (String × Entry)} {sym : String}
    (hens : ensureWatchlisted env st.watchlist sym = some wl)
    (haux : ∀ x ∈ st.portfolio, (0 : ℤ) < x.2 →
      ∃ e, dictGet st.watchlist x.1 = some e ∧ ∃ p, e.price = some p ∧ 0 < p) :
    ∀ x ∈ st.portfolio, (0 : ℤ) < x.2 →
      ∃ e, dictGet wl x.1 = some e ∧ ∃ p, e.price = some p ∧ 0 < p := by
  intro x hx hpos
  obtain ⟨e, he, p, hp, hppos⟩ := haux x hx hpos
  rcases ensureWatchlisted_some hens with ⟨rfl, _⟩ | ⟨hnone, _, _, _, _, _, hk⟩
  · exact ⟨e, he, p, hp, hppos⟩
  · by_cases hxs : x.1 = sym
    · rw [hxs, hnone] at he
      exact absurd he (by simp)
    · rw [hk x.1 hxs]
      exact ⟨e, he, p, hp, hppos⟩

theorem add_cash_good (st : SessionState) (amt : ℚ) (hg : GoodState st) :
    GoodState (add_cash st amt) := by
  unfold add_cash
  split
  · rename_i h
    exact ⟨add_nonneg hg.1 h.le, hg.2.1, hg.2.2⟩
  · exact hg

theorem buy_good (env : Env) (st : SessionState) (sym : String) (a : ℚ)
    (hg : GoodState st) : GoodState (buy_by_cash env st sym a).1 := by
  rcases buy_by_cash_cases env st sym a with
    ⟨e, st', heq, hc, hp, _, hwl⟩ |
    ⟨wl, p, hens, ⟨en, hlook, hpr⟩, hppos, _, h1, hcash, heq⟩
  · rw [heq]
    refine ⟨hc ▸ hg.1, ?_, ?_⟩
    · show ∀ x ∈ st'.portfolio, (0 : ℤ) ≤ x.2
      rw [hp]
      exact hg.2.1
    · show ∀ x ∈ st'.portfolio, (0 : ℤ) < x.2 →
        ∃ e, dictGet st'.watchlist x.1 = some e ∧ ∃ q, e.price = some q ∧ 0 < q
      rw [hp]
      rcases hwl with hw | hens'
      · rw [hw]
        exact hg.2.2
      · exact good_aux_transfer hens' hg.2.2
  · rw [heq]
    refine ⟨sub_nonneg.mpr hcash, ?_, ?_⟩
    · intro x hx
      rcases mem_dictSet hx with rfl | hmem
      · have hd := dictGetD_nonneg sym hg.2.1
        show (0 : ℤ) ≤ dictGetD st.portfolio sym 0 + ⌊a / p⌋
        omega
      · exact hg.2.1 x hmem
    · intro x hx hpos
      rcases mem_dictSet hx with rfl | hmem
      · exact ⟨en, hlook, p, hpr, hppos⟩
      · exact good_aux_transfer hens hg.2.2 x hmem hpos

theorem sell_good (env : Env) (st : SessionState) (sym : String)
    (hg : GoodState st) : GoodState (sell_all env st sym).1 := by
  rcases sell_all_cases env st sym with
    ⟨e, st', heq, hc, hp, _, hwl⟩ |
    ⟨wl, p, hpos, hens, ⟨en, hlook, hpr⟩, heq⟩
  · rw [heq]
    refine ⟨hc ▸ hg.1, ?_, ?_⟩
    · show ∀ x ∈ st'.portfolio, (0 : ℤ) ≤ x.2
      rw [hp]
      exact hg.2.1
    · show ∀ x ∈ st'.portfolio, (0 : ℤ) < x.2 →
        ∃ e, dictGet st'.watchlist x.1 = some e ∧ ∃ q, e.price = some q ∧ 0 < q
      rw [hp]
      rcases hwl with hw | hens'
      · rw [hw]
        exact hg.2.2
      · exact good_aux_transfer hens' hg.2.2
  · obtain ⟨e0, he0, p0, hp0, hp0pos⟩ :=
      hg.2.2 (sym, dictGetD st.portfolio sym 0) (dictGetD_pos_mem hpos) hpos
    have hwl0 : wl = st.watchlist := by
      have := (ensureWatchlisted_of_lookup env he0).symm.trans hens
      exact (Option.some.inj this).symm
    subst hwl0
    have hen0 : en = e0 := Option.some.inj ((hlook.symm.trans he0))
    subst hen0
    have hpp0 : p = p0 := Option.some.inj (hpr.symm.trans hp0)
    subst hpp0
    rw [heq]
    have hq : (0 : ℚ) ≤ ((dictGetD st.portfolio sym 0 : ℤ) : ℚ) * p := by
      have h1 : (0 : ℚ) ≤ ((dictGetD st.portfolio sym 0 : ℤ) : ℚ) := by
        exact_mod_cast hpos.le
      exact mul_nonneg h1 hp0pos.le
    refine ⟨add_nonneg hg.1 hq, ?_, ?_⟩
    · intro x hx
      rcases mem_dictSet hx with rfl | hmem
      · exact le_refl 0
      · exact hg.2.1 x hmem
    · intro x hx hxpos
      rcases mem_dictSet hx with rfl | hmem
      · exact absurd hxpos (by norm_num)
      · exact hg.2.2 x hmem hxpos

theorem div_step_good (env : Env) (today : String) (acc : SessionState)
    (e : String × ℤ) (hmem : e ∈ acc.portfolio) (hg : GoodState acc) :
    GoodState (div_step env today acc e) := by
  by_cases h1 : e.2 ≤ 0
  · rw [div_step_nonpos env today acc e h1]; exact hg
  by_cases h2 : dictGet acc.last_div_credit e.1 = some today
  · rw [div_step_today env today acc e h2]; exact hg
  obtain ⟨en, hlook, p, hpr, hppos⟩ := hg.2.2 e hmem (not_le.mp h1)
  rw [div_step_eq_of_lookup env today acc e en h1 h2 hlook]
  refine ⟨?_, hg.2.1, hg.2.2⟩
  rw [hpr]
  show 0 ≤ acc.cash +
    (if p ≠ 0 ∧ 0 < en.dividend_yield then
      p * en.dividend_yield / 252 * (e.2 : ℚ) else 0)
  by_cases hcond : p ≠ 0 ∧ 0 < en.dividend_yield
  · rw [if_pos hcond]
    have hq : (0 : ℚ) ≤ p * en.dividend_yield / 252 * (e.2 : ℚ) := by
      have he2 : (0 : ℚ) ≤ (e.2 : ℚ) := by exact_mod_cast (not_le.mp h1).le
      exact mul_nonneg (div_nonneg (mul_nonneg hppos.le hcond.2.le) (by norm_num)) he2
    linarith [hg.1]
  · rw [if_neg hcond]
    linarith [hg.1]

theorem foldl_div_good (env : Env) (today : String) :
    ∀ (l : List (String × ℤ)) (acc : SessionState),
      (∀ e ∈ l, e ∈ acc.portfolio) → GoodState acc →
      GoodState (l.foldl (div_step env today) acc) := by
  intro l
  induction l with
  | nil => intro acc _ hg; exact hg
  | cons y l ih =>
    intro acc hsub hg
    rw [List.foldl_cons]
    refine ih _ ?_ (div_step_good env today acc y (hsub y (List.mem_cons_self y l)) hg)
    intro e he
    rw [div_step_portfolio]
    exact hsub e (List.mem_cons_of_mem y he)

theorem accrue_good (env : Env) (today : String) (st : SessionState)
    (hg : GoodState st) : GoodState (credit_dividends_once_per_day env today st) := by
  unfold credit_dividends_once_per_day
  exact foldl_div_good env today st.portfolio st (fun e he => he) hg

theorem applyOp_good (st : SessionState) (op : Op) (hg : GoodState st) :
    GoodState (applyOp st op) := by
  cases op with
  | opAddCash a => exact add_cash_good st a hg
  | opBuy env sym a => exact buy_good env st sym a hg
  | opSell env sym => exact sell_good env st sym hg
  | opAccrue env d => exact accrue_good env d st hg

theorem initState_good : GoodState initState :=
  ⟨by norm_num [initState], fun x hx => absurd hx (List.not_mem_nil x),
   fun x hx => absurd hx (List.not_mem_nil x)⟩

theorem runOps_good (ops : List Op) : GoodState (runOps ops) := by
  unfold runOps
  have h : ∀ (l : List Op) (st : SessionState), GoodState st →
      GoodState (l.foldl applyOp st) := by
    intro l
    induction l with
    | nil => intro st hg; exact hg
    | cons op l ih =>
      intro st hg
      rw [List.foldl_cons]
      exact ih _ (applyOp_good st op hg)
  exact h ops initState initState_good

/-! ### Replay consistency machinery -/

theorem replay_snoc (l : List Trade) (t : Trade) :
    replay (l ++ [t]) = replayStep (replay l) t := by
  unfold replay
  rw [List.foldl_append]
  rfl

theorem add_cash_replay (st : SessionState) (amt : ℚ)
    (h : replay st.trade_history = st.portfolio) :
    replay (add_cash st amt).trade_history = (add_cash st amt).portfolio := by
  unfold add_cash
  split
  · exact h
  · exact h

theorem buy_replay (env : Env) (st : SessionState) (sym : String) (a : ℚ)
    (h : replay st.trade_history = st.portfolio) :
    replay (buy_by_cash env st sym a).1.trade_history =
      (buy_by_cash env st sym a).1.portfolio := by
  rcases buy_by_cash_cases env st sym a with
    ⟨e, st', heq, _, hp, hh, _⟩ | ⟨wl, p, _, _, _, _, _, _, heq⟩
  · rw [heq]
    show replay st'.trade_history = st'.portfolio
    rw [hh, hp, h]
  · rw [heq]
    show replay (st.trade_history ++
        [{ action := .BUY, stock := sym, quantity := ⌊a / p⌋, price := p,
           amount := round2 ((⌊a / p⌋ : ℚ) * p) }]) =
      dictSet st.portfolio sym (dictGetD st.portfolio sym 0 + ⌊a / p⌋)
    rw [replay_snoc, h]
    rfl

theorem sell_replay (env : Env) (st : SessionState) (sym : String)
    (h : replay st.trade_history = st.portfolio) :
    replay (sell_all env st sym).1.trade_history =
      (sell_all env st sym).1.portfolio := by
  rcases sell_all_cases env st sym with
    ⟨e, st', heq, _, hp, hh, _⟩ | ⟨wl, p, _, _, _, heq⟩
  · rw [heq]
    show replay st'.trade_history = st'.portfolio
    rw [hh, hp, h]
  · rw [heq]
    show replay (st.trade_history ++
        [{ action := .SELL, stock := sym, quantity := dictGetD st.portfolio sym 0,
           price := p,
           amount := round2 (((dictGetD st.portfolio sym 0 : ℤ) : ℚ) * p) }]) =
      dictSet st.portfolio sym 0
    rw [replay_snoc, h]
    show dictSet st.portfolio sym
        (dictGetD st.portfolio sym 0 - dictGetD st.portfolio sym 0) =
      dictSet st.portfolio sym 0
    rw [sub_self]

theorem accrue_replay (env : Env) (today : String) (st : SessionState)
    (h : replay st.trade_history = st.portfolio) :
    replay (credit_dividends_once_per_day env today st).trade_history =
      (credit_dividends_once_per_day env today st).portfolio := by
  unfold credit_dividends_once_per_day
  rw [foldl_div_trade_history, foldl_div_portfolio]
  exact h

theorem applyOp_replay (st : SessionState) (op : Op)
    (h : replay st.trade_history = st.portfolio) :
    replay (applyOp st op).trade_history = (applyOp st op).portfolio := by
  cases op with
  | opAddCash a => exact add_cash_replay st a h
  | opBuy env sym a => exact buy_replay env st sym a h
  | opSell env sym => exact sell_replay env st sym h
  | opAccrue env d => exact accrue_replay env d st h

theorem runOps_replay_inv (ops : List Op) :
    replay (runOps ops).trade_history = (runOps ops).portfolio := by
  unfold runOps
  have h : ∀ (l : List Op) (st : SessionState),
      replay st.trade_history = st.portfolio →
      replay (l.foldl applyOp st).trade_history = (l.foldl applyOp st).portfolio := by
    intro l
    induction l with
    | nil => intro st hr; exact hr
    | cons op l ih =>
      intro st hr
      rw [List.foldl_cons]
      exact ih _ (applyOp_replay st op hr)
  exact h ops initState rfl

/-! ### The claims -/

/-- C2: for every sequence of operations (add cash, buy, sell, dividend
accrual) starting from the initial account, after each operation the cash
balance is non-negative and every portfolio position is non-negative. -/
theorem C2_cash_positions_nonneg (ops : List Op) :
    0 ≤ (runOps ops).cash ∧ ∀ sym, 0 ≤ dictGetD (runOps ops).portfolio sym 0 := by
  have hg := runOps_good ops
  exact ⟨hg.1, fun sym => dictGetD_nonneg sym hg.2.1⟩

/-- C9: for every reachable account state, replaying the trade log from an
empty positions map (adding each BUY's share count for its symbol and
subtracting each SELL's, with dict semantics) yields exactly the live
positions map. -/
theorem C9_replay_consistency (ops : List Op) :
    replay (runOps ops).trade_history = (runOps ops).portfolio :=
  runOps_replay_inv ops

/-- C7: calling the daily dividend accrual twice on the same calendar date
with unchanged holdings, prices and yields (the same environment) changes
cash only once: the second call leaves cash exactly as the first left it. -/
theorem C7_accrual_idempotent_same_day (env : Env) (today : String)
    (st : SessionState) :
    (credit_dividends_once_per_day env today
      (credit_dividends_once_per_day env today st)).cash =
    (credit_dividends_once_per_day env today st).cash := by
  rw [credit_dividends_idempotent]

/-- C3: every buy or sell call that fails leaves the cash balance, the
positions map and the trade log exactly as they were before the call. -/
theorem C3_failed_trade_atomic (env : Env) (st : SessionState) (sym : String)
    (a : ℚ) :
    (∀ e, (buy_by_cash env st sym a).2 = .err e →
      (buy_by_cash env st sym a).1.cash = st.cash ∧
      (buy_by_cash env st sym a).1.portfolio = st.portfolio ∧
      (buy_by_cash env st sym a).1.trade_history = st.trade_history) ∧
    (∀ e, (sell_all env st sym).2 = .err e →
      (sell_all env st sym).1.cash = st.cash ∧
      (sell_all env st sym).1.portfolio = st.portfolio ∧
      (sell_all env st sym).1.trade_history = st.trade_history) := by
  constructor
  · intro e he
    rcases buy_by_cash_cases env st sym a with
      ⟨e', st', heq, hc, hp, hh, _⟩ | ⟨wl, p, _, _, _, _, _, _, heq⟩
    · rw [heq]
      exact ⟨hc, hp, hh⟩
    · rw [heq] at he
      exact absurd he (by simp)
  · intro e he
    rcases sell_all_cases env st sym with
      ⟨e', st', heq, hc, hp, hh, _⟩ | ⟨wl, p, _, _, _, heq⟩
    · rw [heq]
      exact ⟨hc, hp, hh⟩
    · rw [heq] at he
      exact absurd he (by simp)

/-- Witness for C3: a concrete failing buy (requested 300 against cash 100
at price 100) and a concrete failing sell (no position) leave the state
components unchanged. -/
theorem C3_failed_trade_atomic_witness :
    (buy_by_cash envEmpty stC1 "XYZ" 300).1.cash = stC1.cash ∧
    (sell_all envEmpty initState "XYZ").1.portfolio = initState.portfolio :=
  ⟨((C3_failed_trade_atomic envEmpty stC1 "XYZ" 300).1 TradeErr.insufficientCash
      (by
        have h3 : ⌊(300 : ℚ) / 100⌋ = (3 : ℤ) := by norm_num
        simp +decide [h3, buy_by_cash, ensureWatchlisted, refresh_symbol, dictGet,
          dictGetD, dictSet, stC1, envEmpty, log_trade])).1,
   ((C3_failed_trade_atomic envEmpty initState "XYZ" (0 : ℚ)).2 TradeErr.noShares
      (by simp +decide [sell_all, dictGet, dictGetD, initState])).2.1⟩

/-- C8: a successful SpendCash buy of s shares at settle price p with
requested amount a satisfies s ≤ floor(a / p) and s * p ≤ a: the cash
spent never exceeds the requested amount. -/
theorem C8_floor_division_law (env : Env) (st : SessionState) (sym : String)
    (a : ℚ) (s : ℤ) (p : ℚ)
    (h : (buy_by_cash env st sym a).2 = .ok s p) :
    s ≤ ⌊a / p⌋ ∧ (s : ℚ) * p ≤ a := by
  rcases buy_by_cash_cases env st sym a with
    ⟨e, st', heq, _, _, _, _⟩ | ⟨wl, q, _, _, hqpos, _, _, _, heq⟩
  · rw [heq] at h
    exact absurd h (by simp)
  · rw [heq] at h
    have h' : ⌊a / q⌋ = s ∧ q = p := by
      simpa [TradeOutcome.ok.injEq] using h
    obtain ⟨hs, hq⟩ := h'
    subst hs
    subst hq
    refine ⟨le_refl _, ?_⟩
    have h1 : ((⌊a / q⌋ : ℤ) : ℚ) ≤ a / q := Int.floor_le _
    have h2 := mul_le_mul_of_nonneg_right h1 hqpos.le
    rwa [div_mul_cancel₀ a (ne_of_gt hqpos)] at h2

/-- Witness for C8: the concrete successful buy of 1 share at price 100
with requested amount 100. -/
theorem C8_floor_division_law_witness :
    (1 : ℤ) ≤ ⌊(100 : ℚ) / 100⌋ ∧ ((1 : ℤ) : ℚ) * 100 ≤ (100 : ℚ) :=
  C8_floor_division_law env200 stC6 "XYZ" 100 1 100
    (by simp +decide [buy_by_cash, ensureWatchlisted, refresh_symbol, dictGet,
      dictGetD, dictSet, stC6, env200, log_trade])

/-- C1 counterexample: with cash 100, cached price 100 and requested
amount 300, min(amount, cash) = 100 ≥ price, and the claimed computation
floor(min(amount, cash) / price) = 1 predicts a successful one-share buy;
the code instead computes floor(300 / 100) = 3, finds the cost 300 above
cash, fails with the insufficient-cash warning and buys nothing. -/
theorem C1_min_formula_counterexample :
    (100 : ℚ) ≤ min 300 stC1.cash ∧
    ⌊min (300 : ℚ) stC1.cash / 100⌋ = 1 ∧
    buy_by_cash envEmpty stC1 "XYZ" 300 =
      (stC1, .err .insufficientCash) := by
  refine ⟨by norm_num [stC1], by norm_num [stC1], ?_⟩
  have h3 : ⌊(300 : ℚ) / 100⌋ = (3 : ℤ) := by norm_num
  simp +decide [h3, buy_by_cash, ensureWatchlisted, refresh_symbol, dictGet,
    dictGetD, dictSet, stC1, envEmpty, log_trade]

/-- C1 amended: in SpendCash mode the code computes
shares = floor(amount / p) from the requested amount alone (not
min(amount, cash)); the buy succeeds with exactly that many shares
whenever amount > 0, floor(amount / p) ≥ 1 and
floor(amount / p) * p ≤ cash, and it fails whenever that cost exceeds
cash, even if min(amount, cash) ≥ p. -/
theorem C1_amended_spendcash_shares (env : Env) (st : SessionState)
    (sym : String) (a p : ℚ) (en : Entry)
    (hw : dictGet st.watchlist sym = some en) (hp : en.price = some p)
    (hppos : 0 < p) (ha : 0 < a) (h1 : 1 ≤ ⌊a / p⌋)
    (hcash : (⌊a / p⌋ : ℚ) * p ≤ st.cash) :
    (buy_by_cash env st sym a).2 = .ok ⌊a / p⌋ p ∧
    (buy_by_cash env st sym a).1.cash = st.cash - (⌊a / p⌋ : ℚ) * p ∧
    dictGetD (buy_by_cash env st sym a).1.portfolio sym 0 =
      dictGetD st.portfolio sym 0 + ⌊a / p⌋ := by
  have hens := ensureWatchlisted_of_lookup env hw
  have hpe : ((dictGet st.watchlist sym).getD
      { name := sym, price := none, dividend_yield := 0 }).price = some p := by
    rw [hw]
    exact hp
  rw [buy_success_eq (not_le.mpr ha) hens hpe (not_le.mpr hppos) (by omega)
    (not_lt.mpr hcash)]
  refine ⟨rfl, rfl, ?_⟩
  show dictGetD (dictSet st.portfolio sym (dictGetD st.portfolio sym 0 + ⌊a / p⌋))
    sym 0 = dictGetD st.portfolio sym 0 + ⌊a / p⌋
  unfold dictGetD
  rw [dictGet_dictSet_self]
  rfl

/-- Witness for the amended C1: spending 250 against cash 1000 at cached
price 100 buys floor(250 / 100) = 2 shares. -/
theorem C1_amended_spendcash_shares_witness :
    (buy_by_cash env200 stC6 "XYZ" 250).2 = .ok ⌊(250 : ℚ) / 100⌋ 100 ∧
    (buy_by_cash env200 stC6 "XYZ" 250).1.cash =
      stC6.cash - (⌊(250 : ℚ) / 100⌋ : ℚ) * 100 ∧
    dictGetD (buy_by_cash env200 stC6 "XYZ" 250).1.portfolio "XYZ" 0 =
      dictGetD stC6.portfolio "XYZ" 0 + ⌊(250 : ℚ) / 100⌋ :=
  C1_amended_spendcash_shares env200 stC6 "XYZ" 250 100
    { name := "XYZ", price := some 100, dividend_yield := 0 } rfl rfl
    (by norm_num) (by norm_num) (by norm_num) (by norm_num [stC6])

/-- C5 counterexample: Scenario B (cash 600, two XYZ shares, price 250).
The sell succeeds, cash becomes 1100 and a SELL trade is logged, but the
positions dict still contains the key XYZ (bound to 0): it is not the
empty map the claim requires. -/
theorem C5_key_removed_counterexample :
    (sell_all envEmpty stC5 "XYZ").2 = .ok 2 250 ∧
    (sell_all envEmpty stC5 "XYZ").1.cash = 1100 ∧
    dictGet (sell_all envEmpty stC5 "XYZ").1.portfolio "XYZ" = some 0 ∧
    (sell_all envEmpty stC5 "XYZ").1.portfolio ≠ [] := by
  refine ⟨?_, ?_, ?_, ?_⟩ <;>
    (simp +decide [sell_all, ensureWatchlisted, refresh_symbol, dictGet, dictGetD,
      dictSet, stC5, envEmpty, log_trade];
     try norm_num)

/-- C5 amended: a successful sell-all of n > 0 held shares at cached price
p credits cash by exactly n * p and appends a SELL trade for n shares at
p, but the symbol's entry is set to 0 rather than removed: the key stays
in the positions map, bound to 0. -/
theorem C5_amended_sell_all (env : Env) (st : SessionState) (sym : String)
    (n : ℤ) (en : Entry) (p : ℚ)
    (hn : dictGetD st.portfolio sym 0 = n) (hpos : 0 < n)
    (hw : dictGet st.watchlist sym = some en) (hp : en.price = some p) :
    (sell_all env st sym).2 = .ok n p ∧
    (sell_all env st sym).1.cash = st.cash + (n : ℚ) * p ∧
    (sell_all env st sym).1.trade_history = st.trade_history ++
      [{ action := .SELL, stock := sym, quantity := n, price := p,
         amount := round2 ((n : ℚ) * p) }] ∧
    dictGet (sell_all env st sym).1.portfolio sym = some 0 := by
  subst hn
  have hens := ensureWatchlisted_of_lookup env hw
  have hpe : ((dictGet st.watchlist sym).getD
      { name := sym, price := none, dividend_yield := 0 }).price = some p := by
    rw [hw]
    exact hp
  rw [sell_success_eq (not_le.mpr hpos) hens hpe]
  refine ⟨rfl, rfl, rfl, ?_⟩
  show dictGet (dictSet st.portfolio sym 0) sym = some 0
  exact dictGet_dictSet_self ..

/-- Witness for the amended C5: the Scenario B numbers. -/
theorem C5_amended_sell_all_witness :
    (sell_all envEmpty stC5 "XYZ").2 = .ok 2 250 ∧
    (sell_all envEmpty stC5 "XYZ").1.cash = stC5.cash + ((2 : ℤ) : ℚ) * 250 ∧
    (sell_all envEmpty stC5 "XYZ").1.trade_history = stC5.trade_history ++
      [{ action := .SELL, stock := "XYZ", quantity := 2, price := 250,
         amount := round2 (((2 : ℤ) : ℚ) * 250) }] ∧
    dictGet (sell_all envEmpty stC5 "XYZ").1.portfolio "XYZ" = some 0 :=
  C5_amended_sell_all envEmpty stC5 "XYZ" 2
    { name := "XYZ", price := some 250, dividend_yield := 0 } 250 rfl
    (by norm_num) rfl rfl

/-- C6 counterexample: XYZ is cached on the watchlist at price 100 while
the quote provider's fresh quote is 200.  A buy settles at the stale
cached price 100, not at the fresh quote. -/
theorem C6_fresh_quote_counterexample :
    env200.quote "XYZ" = some 200 ∧
    dictGet stC6.watchlist "XYZ" =
      some { name := "XYZ", price := some 100, dividend_yield := 0 } ∧
    (buy_by_cash env200 stC6 "XYZ" 100).2 = .ok 1 100 ∧
    (100 : ℚ) ≠ 200 := by
  refine ⟨rfl, rfl, ?_, by norm_num⟩
  simp +decide [buy_by_cash, ensureWatchlisted, refresh_symbol, dictGet,
    dictGetD, dictSet, stC6, env200, log_trade]

/-- C6 amended: for a symbol already on the watchlist, buys and sells
settle at the cached watchlist price and never consult the quote
provider: the result is identical under any two environments.  A fresh
quote is fetched (and cached) only when the symbol is absent from the
watchlist. -/
theorem C6_amended_cached_price_settles (env env' : Env) (st : SessionState)
    (sym : String) (a : ℚ) (en : Entry)
    (hw : dictGet st.watchlist sym = some en) :
    buy_by_cash env st sym a = buy_by_cash env' st sym a ∧
    sell_all env st sym = sell_all env' st sym := by
  have h1 : ensureWatchlisted env st.watchlist sym = some st.watchlist :=
    ensureWatchlisted_of_lookup env hw
  have h2 : ensureWatchlisted env' st.watchlist sym = some st.watchlist :=
    ensureWatchlisted_of_lookup env' hw
  constructor
  · unfold buy_by_cash
    rw [h1, h2]
  · unfold sell_all
    rw [h1, h2]

/-- Witness for the amended C6: with XYZ cached, the buy and sell results
under the live environment equal those under the empty environment. -/
theorem C6_amended_cached_price_settles_witness :
    buy_by_cash env200 stC6 "XYZ" 100 = buy_by_cash envEmpty stC6 "XYZ" 100 ∧
    sell_all env200 stC6 "XYZ" = sell_all envEmpty stC6 "XYZ" :=
  C6_amended_cached_price_settles env200 envEmpty stC6 "XYZ" 100
    { name := "XYZ", price := some 100, dividend_yield := 0 } rfl

/-- C4 (code violation): sell_all checks the cached price only against
None, so with one held XYZ share and a cached price of 0 the sell
executes and appends a SELL trade whose price is 0 — a zero-price trade
is logged, contradicting the claimed trade-log invariant. -/
theorem C4_zero_price_trade_logged :
    (sell_all envEmpty stC4 "XYZ").2 = .ok 1 0 ∧
    (sell_all envEmpty stC4 "XYZ").1.trade_history =
      [{ action := .SELL, stock := "XYZ", quantity := 1, price := 0,
         amount := 0 }] ∧
    ∃ t ∈ (sell_all envEmpty stC4 "XYZ").1.trade_history, ¬ 0 < t.price := by
  have h12 : (sell_all envEmpty stC4 "XYZ").2 = .ok 1 0 ∧
      (sell_all envEmpty stC4 "XYZ").1.trade_history =
        [{ action := .SELL, stock := "XYZ", quantity := 1, price := 0,
           amount := 0 }] := by
    constructor <;>
      simp +decide [sell_all, ensureWatchlisted, refresh_symbol, dictGet,
        dictGetD, dictSet, stC4, envEmpty, log_trade, round2]
  refine ⟨h12.1, h12.2, ?_⟩
  refine ⟨⟨.SELL, "XYZ", 1, 0, 0⟩, ?_, by norm_num⟩
  rw [h12.2]
  exact List.mem_singleton.mpr rfl

/-- A dividend pass over a one-position portfolio whose symbol is already
stamped with today is the identity. -/
theorem accrue_single_skip (env : Env) (today : String) (s2 : SessionState)
    (sym : String) (n : ℤ) (hport : s2.portfolio = [(sym, n)])
    (hd : dictGet s2.last_div_credit sym = some today) :
    credit_dividends_once_per_day env today s2 = s2 := by
  unfold credit_dividends_once_per_day
  rw [hport]
  show div_step env today s2 (sym, n) = s2
  exact div_step_today env today s2 (sym, n) hd

/-- C10: a held symbol that the dividend pass processes gets its
last-credited date stamped with today even when no cash is credited
because its watchlist record has no price or a non-positive yield; any
later accrual pass the same day (under any environment, with any
watchlist updates in between, e.g. a refresh that brings a valid price
and a positive yield) pays nothing. -/
theorem C10_date_stamped_without_credit (env env2 : Env) (today : String)
    (st : SessionState) (sym : String) (n : ℤ) (en : Entry)
    (hport : st.portfolio = [(sym, n)]) (hn : 0 < n)
    (hw : dictGet st.watchlist sym = some en)
    (hbad : en.price = none ∨ en.dividend_yield ≤ 0)
    (hnot : ¬ dictGet st.last_div_credit sym = some today) :
    (credit_dividends_once_per_day env today st).cash = st.cash ∧
    dictGet (credit_dividends_once_per_day env today st).last_div_credit sym
      = some today ∧
    ∀ st2 : SessionState, st2.portfolio = st.portfolio →
      st2.last_div_credit =
        (credit_dividends_once_per_day env today st).last_div_credit →
      (credit_dividends_once_per_day env2 today st2).cash = st2.cash := by
  have hone : credit_dividends_once_per_day env today st =
      div_step env today st (sym, n) := by
    unfold credit_dividends_once_per_day
    rw [hport]
    rfl
  have h1 : ¬ (sym, n).2 ≤ 0 := not_le.mpr hn
  have hred := div_step_eq_of_lookup env today st (sym, n) en h1 hnot hw
  have hM : (match en.price with
      | none => (0 : ℚ)
      | some p =>
        if p ≠ 0 ∧ 0 < en.dividend_yield then
          p * en.dividend_yield / 252 * (((sym, n) : String × ℤ).2 : ℚ)
        else 0) = (0 : ℚ) := by
    rcases hbad with hb | hb
    · rw [hb]
    · cases hpz : en.price with
      | none => rfl
      | some p =>
        show (if p ≠ 0 ∧ 0 < en.dividend_yield then
            p * en.dividend_yield / 252 * (((sym, n) : String × ℤ).2 : ℚ)
          else 0) = 0
        exact if_neg fun hc => absurd hc.2 (not_lt.mpr hb)
  have hstate : credit_dividends_once_per_day env today st =
      { st with
        cash := st.cash,
        last_div_credit := dictSet st.last_div_credit sym today } := by
    rw [hone, hred, hM, add_zero]
  refine ⟨by rw [hstate], by rw [hstate]; exact dictGet_dictSet_self .., ?_⟩
  intro st2 hp2 hd2
  rw [accrue_single_skip env2 today st2 sym n (hp2.trans hport)
    (by rw [hd2, hstate]; exact dictGet_dictSet_self ..)]

/-- Witness for C10: ten XYZ shares with a cached price but yield 0.  The
pass credits nothing yet stamps today; a second pass after the watchlist
gains a positive yield still pays nothing. -/
theorem C10_date_stamped_without_credit_witness :
    (credit_dividends_once_per_day envEmpty "2026-10-12" stC10).cash =
      stC10.cash ∧
    dictGet (credit_dividends_once_per_day envEmpty "2026-10-12"
      stC10).last_div_credit "XYZ" = some "2026-10-12" ∧
    (credit_dividends_once_per_day envEmpty "2026-10-12"
      { stC10 with
        watchlist := dictSet stC10.watchlist "XYZ" entryC10,
        last_div_credit :=
          (credit_dividends_once_per_day envEmpty "2026-10-12"
            stC10).last_div_credit }).cash = stC10.cash := by
  obtain ⟨h1, h2, h3⟩ := C10_date_stamped_without_credit envEmpty envEmpty
    "2026-10-12" stC10 "XYZ" 10 { name := "XYZ", price := some 50, dividend_yield := 0 }
    rfl (by norm_num) rfl (Or.inr le_rfl) (by simp [stC10, dictGet])
  exact ⟨h1, h2, h3 _ rfl rfl⟩
